import Mathlib

/-!
Shallow embedding of the transaction-construction and key-custody core of the
MyBTC wallet (`btc_wallet_app/wallet/tx_builder.py`,
`btc_wallet_app/utils/fee_estimator.py`, `btc_wallet_app/wallet/key_manager.py`).

Python integers are embedded as `Int` (or `Nat` for counts), `Decimal` BTC
amounts as `ℚ` (Python `Decimal` arithmetic on the values appearing here is
exact), dictionaries with fixed keys as structures, and `raise` as
`Except.error` with one constructor per raise site.  External libraries
(`bitcoinlib` address parsing, `cryptography.fernet`, `json`, `os.urandom`)
are embedded as explicit parameters carrying their documented contracts.
-/

namespace MyBTCWallet

/-- From `tx_builder.py` line 24: `SATOSHIS_PER_BTC = Decimal('100000000')`. -/
def SATOSHIS_PER_BTC : ℚ := 100000000

/-- From `tx_builder.py` lines 26-28: `int(btc_amount * SATOSHIS_PER_BTC)`.
Python `int()` on a `Decimal` truncates toward zero, which is `Int.tdiv`
of the exact rational's numerator by its denominator. -/
def btc_to_satoshi (btc_amount : ℚ) : Int :=
  Int.tdiv (btc_amount * SATOSHIS_PER_BTC).num ((btc_amount * SATOSHIS_PER_BTC).den : Int)

/-- From `tx_builder.py` lines 34-62, `estimate_transaction_size`: the size
estimator that `select_utxos_for_amount` and `create_raw_transaction` call.
The `output_type` parameter is accepted but unused by the source: every
output is counted at 34 bytes, and the overhead is the fixed 10. -/
def estimate_transaction_size (num_inputs num_outputs : Nat)
    (input_type output_type : String) : Nat :=
  let input_size : Nat :=
    if input_type = "p2wpkh" then 68
    else if input_type = "p2pkh" then 148
    else 100
  let output_size : Nat := 34
  let overhead : Nat := 10
  num_inputs * input_size + num_outputs * output_size + overhead

/-- From `fee_estimator.py` lines 26-75, `estimate_transaction_size_bytes`:
per-output-type unit (34/31/32, falling back to 34) and a varint bump of
2 on the overhead for each count above 252. -/
def estimate_transaction_size_bytes (num_inputs num_outputs : Nat)
    (input_type output_type : String) : Nat :=
  let input_vbytes : Nat :=
    if input_type = "p2wpkh" then 68
    else if input_type = "p2pkh" then 148
    else 100
  let output_vbytes : Nat :=
    if output_type = "p2pkh" then 34
    else if output_type = "p2wpkh" then 31
    else if output_type = "p2sh" then 32
    else 34
  let overhead_vbytes : Nat :=
    10 + (if num_inputs > 252 then 2 else 0) + (if num_outputs > 252 then 2 else 0)
  num_inputs * input_vbytes + num_outputs * output_vbytes + overhead_vbytes

/-- From `fee_estimator.py` lines 77-95, `estimate_fee_details`: returns
(estimated_size_vbytes, fee_rate actually used, total_fee_sats). -/
def estimate_fee_details (num_inputs num_outputs : Nat)
    (input_type output_type : String)
    (custom_fee_rate : Option Int) (config_default_rate : Int) : Nat × Int × Int :=
  let estimated_size_vbytes := estimate_transaction_size_bytes num_inputs num_outputs input_type output_type
  let fee_rate_to_use := custom_fee_rate.getD config_default_rate
  (estimated_size_vbytes, fee_rate_to_use, (estimated_size_vbytes : Int) * fee_rate_to_use)

/-- Refinement comparison definition, written from the spec's words
(spec section 4.1): `total_size = num_inputs*input_unit +
num_outputs*output_unit + overhead` with input units 68/148/100, output
units 34 (P2PKH), 31 (P2WPKH), 32 (P2SH), and overhead 10, plus 2 if the
input count exceeds 252 and plus 2 if the output count exceeds 252.  The
spec's table lists no unit for an unknown output type; the comparison uses
the 34-byte legacy unit there. -/
def specSizeFormula (num_inputs num_outputs : Nat)
    (input_type output_type : String) : Nat :=
  let input_unit : Nat :=
    if input_type = "p2wpkh" then 68
    else if input_type = "p2pkh" then 148
    else 100
  let output_unit : Nat :=
    if output_type = "p2pkh" then 34
    else if output_type = "p2wpkh" then 31
    else if output_type = "p2sh" then 32
    else 34
  let overhead : Nat :=
    10 + (if num_inputs > 252 then 2 else 0) + (if num_outputs > 252 then 2 else 0)
  num_inputs * input_unit + num_outputs * output_unit + overhead

/-- Error kinds of `tx_builder.py`, one constructor per raise site.  Every
one of them is raised as the Python built-in `ValueError` in the source;
`pyExcType` below records that exception class. -/
inductive TxError where
  /-- line 83 / line 176: empty UTXO list. -/
  | noUtxos : TxError
  /-- line 89 / line 178: a UTXO dictionary misses a required key.  In this
  typed embedding every UTXO structurally carries all four fields, so this
  kind is unreachable here. -/
  | malformedUtxo : TxError
  /-- line 167: network name not one of bitcoin/testnet/regtest. -/
  | unsupportedNetwork (name : String) : TxError
  /-- line 186: recipient or change address failed `bitcoinlib` parsing. -/
  | invalidAddress : TxError
  /-- line 129 / line 217: funds below target plus estimated fee. -/
  | insufficientFunds : TxError
  /-- line 253: computed change negative. -/
  | negativeChange : TxError
  /-- line 261: final balance re-check found a deficit. -/
  | balanceMismatch : TxError
deriving DecidableEq, Repr

/-- The Python exception class each `TxError` is raised as: every raise
site in `tx_builder.py` uses the built-in `ValueError` (lines 83, 89, 129,
167, 176, 178, 186, 217, 253, 261), so causes differ only in message text. -/
def pyExcType : TxError → String := fun _ => "ValueError"

/-- A UTXO as consumed by `select_utxos_for_amount`: the required keys
`txid`, `vout`, `amount` (Decimal BTC) and `scriptPubKey` of the Python
dictionary (`tx_builder.py` line 88). -/
structure Utxo where
  txid : String
  vout : Nat
  amount : ℚ
  scriptPubKey : String
deriving DecidableEq, Repr

/-- A UTXO after `tx_builder.py` lines 90-92: the original fields plus the
added `satoshi_amount` field. -/
structure SpendableUtxo where
  txid : String
  vout : Nat
  amount : ℚ
  scriptPubKey : String
  satoshi_amount : Int
deriving DecidableEq, Repr

/-- From `tx_builder.py` lines 90-92: copy the UTXO and add
`satoshi_amount = btc_to_satoshi(amount)`. -/
def addSats (u : Utxo) : SpendableUtxo :=
  { txid := u.txid, vout := u.vout, amount := u.amount,
    scriptPubKey := u.scriptPubKey, satoshi_amount := btc_to_satoshi u.amount }

/-- Total of the `satoshi_amount` fields of a UTXO list. -/
def satSum (l : List SpendableUtxo) : Int :=
  (l.map (fun u => u.satoshi_amount)).sum

/-- One insertion step of the descending stable sort of `tx_builder.py`
line 95 (`sort(key=..., reverse=True)`): an earlier element passes later
elements only while they are strictly larger, so equal amounts keep their
original relative order, as Python's stable sort does. -/
def insertDesc (u : SpendableUtxo) : List SpendableUtxo → List SpendableUtxo
  | [] => [u]
  | v :: rest =>
      if v.satoshi_amount > u.satoshi_amount then v :: insertDesc u rest
      else u :: v :: rest

/-- From `tx_builder.py` line 95: sort by `satoshi_amount` descending, stably. -/
def sortDesc : List SpendableUtxo → List SpendableUtxo
  | [] => []
  | u :: rest => insertDesc u (sortDesc rest)

/-- From `tx_builder.py` lines 102-114: the selection loop.  Appends UTXOs one
by one, recomputes the fee for the current input count assuming 2 outputs,
and stops as soon as `total_selected >= target + estimated_fee`.
Arguments after the remaining list are the accumulated selection, its
running total and the last estimated fee. -/
def selectLoop (target_amount_sats fee_rate : Int)
    (input_address_type output_address_type : String) :
    List SpendableUtxo → List SpendableUtxo → Int → Int →
    List SpendableUtxo × Int × Int
  | [], sel, total, fee => (sel, total, fee)
  | u :: rest, sel, total, fee =>
      let sel' := sel ++ [u]
      let total' := total + u.satoshi_amount
      let fee' : Int :=
        (estimate_transaction_size sel'.length 2 input_address_type output_address_type : Int)
          * fee_rate
      if total' ≥ target_amount_sats + fee' then (sel', total', fee')
      else selectLoop target_amount_sats fee_rate input_address_type output_address_type
             rest sel' total' fee'

/-- From `tx_builder.py` lines 65-135, `select_utxos_for_amount`.  The
missing-key validation of lines 87-89 is structurally satisfied by the
`Utxo` type; lines 90-92 become `addSats`.  After the loop, the final
output count is 2 when the selection strictly exceeds target plus the
loop's fee, else 1, the fee is recomputed for that count, and the function
fails with the insufficient-funds `ValueError` when the total still falls
short (lines 116-135). -/
def select_utxos_for_amount (utxos : List Utxo) (target_amount_sats fee_rate_sats_per_byte : Int)
    (input_address_type output_address_type : String) :
    Except TxError (List SpendableUtxo × Int × Int) :=
  if utxos = [] then .error .noUtxos
  else
    let utxos_with_sats := sortDesc (utxos.map addSats)
    let r := selectLoop target_amount_sats fee_rate_sats_per_byte
               input_address_type output_address_type utxos_with_sats [] 0 0
    let selected := r.1
    let total_selected_sats := r.2.1
    let estimated_fee_sats := r.2.2
    let num_outputs_final : Nat :=
      if total_selected_sats > target_amount_sats + estimated_fee_sats then 2
      else if total_selected_sats = target_amount_sats + estimated_fee_sats then 1
      else 1
    let final_fee : Int :=
      (estimate_transaction_size selected.length num_outputs_final
          input_address_type output_address_type : Int) * fee_rate_sats_per_byte
    if total_selected_sats < target_amount_sats + final_fee then .error .insufficientFunds
    else .ok (selected, total_selected_sats, final_fee)

/-- An input added by `tx.add_input(prev_txid=..., output_n=..., value=...)`
(`tx_builder.py` lines 203-204). -/
structure TxIn where
  prev_txid : String
  output_n : Nat
  value : Int
deriving DecidableEq, Repr

/-- An output added by `tx.add_output(value=..., address=...)`
(`tx_builder.py` lines 224, 239). -/
structure TxOut where
  value : Int
  address : String
deriving DecidableEq, Repr

/-- The transaction structure handed to the external `bitcoinlib`
serializer (`tx_builder.py` line 195): its network, witness type, and the
ordered inputs and outputs.  The byte-exact hex encoding of line 266 is
the external codec's job and is not modelled. -/
structure Tx where
  network : String
  witness_type : Option String
  inputs : List TxIn
  outputs : List TxOut
deriving DecidableEq, Repr

/-- From `tx_builder.py` lines 158-163: map a `None` network name through
`config.NETWORK` ("mainnet" becomes "bitcoin", "testnet" and "regtest"
stand, anything else falls back to "testnet"). -/
def resolveNetwork (network_name : Option String) (configNetwork : String) : String :=
  match network_name with
  | some n => n
  | none =>
      if configNetwork = "testnet" then ("testnet")
      else if configNetwork = "mainnet" then ("bitcoin")
      else if configNetwork = "regtest" then ("regtest")
      else ("testnet")

/-- From `tx_builder.py` lines 188-193: the `bitcoinlib` witness type chosen
from the input address type. -/
def witnessTypeOf (input_address_type : String) : Option String :=
  if input_address_type = "p2wpkh" then some ("segwit")
  else if input_address_type = "p2sh-p2wpkh" then some ("segwit_p2sh")
  else none

/-- From `tx_builder.py` lines 210-214: the preliminary fee of
`create_raw_transaction`, computed for the given input count and for 2
outputs when `total_input - target > 0`, else 1, with the estimator's
default `output_type='p2pkh'`. -/
def preliminary_fee (utxos_to_spend : List SpendableUtxo) (amount_btc : ℚ)
    (fee_rate_sats_per_byte : Int) (input_address_type : String) : Int :=
  let total_input_sats := satSum utxos_to_spend
  let target_sats := btc_to_satoshi amount_btc
  let potential_change_sats := total_input_sats - target_sats
  let num_outputs : Nat := if potential_change_sats > 0 then 2 else 1
  (estimate_transaction_size utxos_to_spend.length num_outputs
      input_address_type ("p2pkh") : Int) * fee_rate_sats_per_byte

/-- From `tx_builder.py` line 227: `change_sats = total_input_sats -
target_sats - calculated_fee_sats` with the preliminary fee. -/
def computed_change (utxos_to_spend : List SpendableUtxo) (amount_btc : ℚ)
    (fee_rate_sats_per_byte : Int) (input_address_type : String) : Int :=
  satSum utxos_to_spend - btc_to_satoshi amount_btc -
    preliminary_fee utxos_to_spend amount_btc fee_rate_sats_per_byte input_address_type

/-- From `tx_builder.py` line 236: the dust threshold `MIN_CHANGE_SATS`. -/
def MIN_CHANGE_SATS : Int := 546

/-- From `tx_builder.py` lines 255-264: the final balance re-check before
returning.  A deficit raises; a surplus (commented in the source as
already absorbed into the fee) passes through. -/
def finalBalanceCheck (network : String) (witness_type : Option String)
    (inputs : List TxIn) (outputs : List TxOut) (total_input_sats fee : Int) :
    Except TxError (Tx × Int) :=
  let total_out_sats := (outputs.map (fun o => o.value)).sum
  if total_input_sats ≠ total_out_sats + fee then
    if total_input_sats < total_out_sats + fee then .error .balanceMismatch
    else .ok (⟨network, witness_type, inputs, outputs⟩, fee)
  else .ok (⟨network, witness_type, inputs, outputs⟩, fee)

/-- From `tx_builder.py` lines 138-266, `create_raw_transaction`.

The external `bitcoinlib` address parser of lines 182-186 is embedded as
the parameter `validAddr : address → network → Bool` (the theorems hold
for every parser).  The structural key check of lines 177-178 is satisfied
by the `SpendableUtxo` type.  The `ScriptError` safeguard of lines
240-246 cannot fire because `add_output` is only reached with
`change_sats ≥ 546`, which meets `bitcoinlib`'s dust limit for these
networks, so `add_output` is embedded as total.  The returned transaction
structure stands for the `tx.hex()` serialization delegated to
`bitcoinlib`. -/
def create_raw_transaction (validAddr : String → String → Bool)
    (recipient_address : String) (amount_btc : ℚ) (fee_rate_sats_per_byte : Int)
    (utxos_to_spend : List SpendableUtxo) (change_address : String)
    (network_name : Option String) (input_address_type : String)
    (configNetwork : String) : Except TxError (Tx × Int) :=
  let nn := resolveNetwork network_name configNetwork
  if ¬(nn = "bitcoin" ∨ nn = "testnet" ∨ nn = "regtest") then
    .error (.unsupportedNetwork nn)
  else if utxos_to_spend = [] then .error .noUtxos
  else if ¬(validAddr recipient_address nn && validAddr change_address nn) then
    .error .invalidAddress
  else
    let witness_type := witnessTypeOf input_address_type
    let inputs := utxos_to_spend.map (fun u => TxIn.mk u.txid u.vout u.satoshi_amount)
    let total_input_sats := satSum utxos_to_spend
    let target_sats := btc_to_satoshi amount_btc
    let calculated_fee_sats :=
      preliminary_fee utxos_to_spend amount_btc fee_rate_sats_per_byte input_address_type
    if total_input_sats < target_sats + calculated_fee_sats then .error .insufficientFunds
    else
      let recipient_output : TxOut := ⟨target_sats, recipient_address⟩
      let change_sats := total_input_sats - target_sats - calculated_fee_sats
      if change_sats > 0 then
        if change_sats ≥ MIN_CHANGE_SATS then
          finalBalanceCheck nn witness_type inputs
            [recipient_output, ⟨change_sats, change_address⟩] total_input_sats
            calculated_fee_sats
        else
          -- change below dust: no change output, the fee absorbs it (line 250)
          finalBalanceCheck nn witness_type inputs [recipient_output] total_input_sats
            (calculated_fee_sats + change_sats)
      else if change_sats < 0 then .error .negativeChange
      else
        finalBalanceCheck nn witness_type inputs [recipient_output] total_input_sats
          calculated_fee_sats

/-! ### Key custody (`key_manager.py`) -/

/-- Byte strings, as lists of byte values. -/
abbrev Bytes := List Nat

/-- The external primitives `key_manager.py` calls, with their documented
contracts as fields.  `kdf` is `_derive_encryption_key` (PBKDF2-HMAC-SHA256,
`key_manager.py` lines 17-27) applied to the UTF-8 password bytes;
`enc`/`dec` are `Fernet.encrypt`/`Fernet.decrypt` with the token's random
nonce made an explicit argument; `serialize`/`parse` are
`json.dumps`/`json.loads` on the key-data value.  The contract fields are
the symbolic (ideal) reading of the libraries' documentation: Fernet
decryption succeeds exactly on genuine tokens of the same key,
ciphertexts determine key and plaintext, and the key-derivation is
collision-free on (password, salt) pairs. -/
structure CryptoPrims (KeyData : Type) where
  kdf : Bytes → Bytes → Bytes
  enc : Bytes → Nat → Bytes → Bytes
  dec : Bytes → Bytes → Option Bytes
  serialize : KeyData → Bytes
  parse : Bytes → Option KeyData
  dec_enc : ∀ k n p, dec k (enc k n p) = some p
  dec_sound : ∀ k c p, dec k c = some p → ∃ n, c = enc k n p
  /-- Fernet's documented tamper rejection: `decrypt` raises
  `InvalidToken` on any modified token, so changing any single byte of a
  genuine token makes decryption fail. -/
  dec_tamper : ∀ k n p i b, (enc k n p).set i b ≠ enc k n p →
    dec k ((enc k n p).set i b) = none
  enc_key_inj : ∀ k n p k' n' p', enc k n p = enc k' n' p' → k = k'
  kdf_inj : ∀ pw s pw' s', kdf pw s = kdf pw' s' → pw = pw' ∧ s = s'
  parse_serialize : ∀ d, parse (serialize d) = some d

/-- From `key_manager.py` lines 90-102, `encrypt_key_data`: derive the key from
the password and a fresh 16-byte salt, Fernet-encrypt the JSON-serialized
data, and prepend the salt.  The `os.urandom(16)` salt of line 92 and the
Fernet nonce are explicit arguments. -/
def encrypt_key_data {α : Type} (P : CryptoPrims α) (salt : Bytes) (nonce : Nat)
    (data : α) (password : Bytes) : Bytes :=
  let key := P.kdf password salt
  let serialized_data := P.serialize data
  let encrypted_payload := P.enc key nonce serialized_data
  salt ++ encrypted_payload

/-- From `key_manager.py` lines 104-115, `decrypt_key_data`: split the leading
16 bytes as the salt, re-derive the key, Fernet-decrypt the rest and parse
the JSON.  Every failure (`fernet.decrypt` raising `InvalidToken`,
`json.loads` raising) is the uniform `none`. -/
def decrypt_key_data {α : Type} (P : CryptoPrims α)
    (encrypted_data_with_salt : Bytes) (password : Bytes) : Option α :=
  let salt := encrypted_data_with_salt.take 16
  let encrypted_payload := encrypted_data_with_salt.drop 16
  let key := P.kdf password salt
  match P.dec key encrypted_payload with
  | none => none
  | some decrypted_payload => P.parse decrypted_payload

/-- Error kinds of `load_encrypted_key` (`key_manager.py` lines 124-137):
a missing file (line 127, Python `FileNotFoundError`) and the uniform
decryption failure (lines 131-137, re-raised as `ValueError`). -/
inductive KeyErr where
  | fileNotFound : KeyErr
  | decryptionFailure : KeyErr
deriving DecidableEq, Repr

/-- The Python exception class of each `KeyErr`: `FileNotFoundError` for
the missing file, and the generic `ValueError` for every decryption
failure (`key_manager.py` line 137). -/
def pyKeyExcType : KeyErr → String
  | .fileNotFound => "FileNotFoundError"
  | .decryptionFailure => "ValueError"

/-- From `key_manager.py` lines 124-137, `load_encrypted_key`: fail on a
missing file before decryption, then decrypt; any exception from
decryption is caught generically and re-raised as the single
`ValueError("Failed to decrypt key. Incorrect password or corrupted
file.")`. -/
def load_encrypted_key {α : Type} (P : CryptoPrims α) (fileExists : Bool)
    (fileContents : Bytes) (password : Bytes) : Except KeyErr α :=
  if ¬fileExists then .error .fileNotFound
  else
    match decrypt_key_data P fileContents password with
    | none => .error .decryptionFailure
    | some key_data => .ok key_data

/-! Concrete instance of `CryptoPrims`, used to evaluate the key-custody
theorems on concrete inputs. -/

/-- An injective (indeed bijective) encoding of byte strings as naturals,
via the standard pairing function. -/
def byteEncode : Bytes → Nat
  | [] => 0
  | a :: l => Nat.pair a (byteEncode l) + 1

/-- Demo key derivation: pairs the password and salt encodings. -/
def demoKdf (pw s : Bytes) : Bytes := [Nat.pair (byteEncode pw) (byteEncode s)]

/-- Demo cipher: a key tag, the nonce, an authentication tag binding the
nonce and the plaintext together, then the plaintext.  The tag makes any
single-position change of a token detectable. -/
def demoEnc (k : Bytes) (n : Nat) (p : Bytes) : Bytes :=
  byteEncode k :: n :: Nat.pair n (byteEncode p) :: p

/-- Demo decryption: checks the key tag and the authentication tag, then
strips the header. -/
def demoDec (k : Bytes) (c : Bytes) : Option Bytes :=
  match c with
  | a :: n :: m :: rest =>
      if a = byteEncode k ∧ m = Nat.pair n (byteEncode rest) then some rest else none
  | _ => none

/-- Demo serializer for `Nat`-valued key data. -/
def demoSerialize (d : Nat) : Bytes := [d]

/-- Demo parser for `Nat`-valued key data. -/
def demoParse (c : Bytes) : Option Nat :=
  match c with
  | [d] => some d
  | _ => none

/-- The demo primitives bundled, with their contract fields proved. -/
def demoPrims : CryptoPrims Nat where
  kdf := demoKdf
  enc := demoEnc
  dec := demoDec
  serialize := demoSerialize
  parse := demoParse
  dec_enc := by
    intro k n p
    simp [demoDec, demoEnc]
  dec_sound := by
    intro k c p h
    match c with
    | [] => simp [demoDec] at h
    | [a] => simp [demoDec] at h
    | [a, n] => simp [demoDec] at h
    | a :: n :: m :: rest =>
        simp only [demoDec] at h
        by_cases hc : a = byteEncode k ∧ m = Nat.pair n (byteEncode rest)
        · rw [if_pos hc] at h
          injection h with h'
          subst h'
          refine ⟨n, ?_⟩
          simp only [demoEnc, ← hc.1, ← hc.2]
        · rw [if_neg hc] at h
          exact absurd h (by simp)
  dec_tamper := by
    have hinj : ∀ l1 l2 : Bytes, byteEncode l1 = byteEncode l2 → l1 = l2 := by
      intro l1
      induction l1 with
      | nil =>
          intro l2 h
          cases l2 with
          | nil => rfl
          | cons b t => simp [byteEncode] at h
      | cons a t ih =>
          intro l2 h
          cases l2 with
          | nil => simp [byteEncode] at h
          | cons b t2 =>
              simp only [byteEncode, Nat.add_right_cancel_iff] at h
              obtain ⟨h1, h2⟩ := Nat.pair_eq_pair.mp h
              rw [h1, ih t2 h2]
    intro k n p i b hne
    rcases i with _ | _ | _ | j
    · -- flip on the key tag
      simp only [demoEnc, List.set] at hne ⊢
      have hb : b ≠ byteEncode k := fun h => hne (by rw [h])
      simp only [demoDec]
      rw [if_neg (fun hcond => hb hcond.1)]
    · -- flip on the nonce slot: the authentication tag no longer matches
      simp only [demoEnc, List.set] at hne ⊢
      have hb : b ≠ n := fun h => hne (by rw [h])
      simp only [demoDec]
      rw [if_neg (fun hcond => hb (Nat.pair_eq_pair.mp hcond.2).1.symm)]
    · -- flip on the authentication tag itself
      simp only [demoEnc, List.set] at hne ⊢
      have hb : b ≠ Nat.pair n (byteEncode p) := fun h => hne (by rw [h])
      simp only [demoDec]
      rw [if_neg (fun hcond => hb hcond.2)]
    · -- flip inside the plaintext: the encoded plaintext changes
      simp only [demoEnc, List.set] at hne ⊢
      have hp : p.set j b ≠ p := fun h => hne (by rw [h])
      simp only [demoDec]
      rw [if_neg (fun hcond => hp (hinj _ _ (Nat.pair_eq_pair.mp hcond.2).2.symm))]
  enc_key_inj := by
    have hinj : ∀ l1 l2 : Bytes, byteEncode l1 = byteEncode l2 → l1 = l2 := by
      intro l1
      induction l1 with
      | nil =>
          intro l2 h
          cases l2 with
          | nil => rfl
          | cons b t => simp [byteEncode] at h
      | cons a t ih =>
          intro l2 h
          cases l2 with
          | nil => simp [byteEncode] at h
          | cons b t2 =>
              simp only [byteEncode, Nat.add_right_cancel_iff] at h
              obtain ⟨h1, h2⟩ := Nat.pair_eq_pair.mp h
              rw [h1, ih t2 h2]
    intro k n p k' n' p' h
    simp only [demoEnc] at h
    injection h with h1 _
    exact hinj _ _ h1
  kdf_inj := by
    have hinj : ∀ l1 l2 : Bytes, byteEncode l1 = byteEncode l2 → l1 = l2 := by
      intro l1
      induction l1 with
      | nil =>
          intro l2 h
          cases l2 with
          | nil => rfl
          | cons b t => simp [byteEncode] at h
      | cons a t ih =>
          intro l2 h
          cases l2 with
          | nil => simp [byteEncode] at h
          | cons b t2 =>
              simp only [byteEncode, Nat.add_right_cancel_iff] at h
              obtain ⟨h1, h2⟩ := Nat.pair_eq_pair.mp h
              rw [h1, ih t2 h2]
    intro pw s pw' s' h
    simp only [demoKdf, List.cons.injEq, and_true] at h
    obtain ⟨h1, h2⟩ := Nat.pair_eq_pair.mp h
    exact ⟨hinj _ _ h1, hinj _ _ h2⟩
  parse_serialize := by
    intro d
    simp [demoParse, demoSerialize]

/-! ### Supporting lemmas -/

theorem satSum_nil : satSum [] = 0 := rfl

theorem satSum_cons (u : SpendableUtxo) (l : List SpendableUtxo) :
    satSum (u :: l) = u.satoshi_amount + satSum l := by
  simp [satSum]

theorem satSum_insertDesc (u : SpendableUtxo) (l : List SpendableUtxo) :
    satSum (insertDesc u l) = u.satoshi_amount + satSum l := by
  induction l with
  | nil => simp [insertDesc, satSum]
  | cons v rest ih =>
      simp only [insertDesc]
      split_ifs
      · rw [satSum_cons, ih, satSum_cons]; ring
      · rw [satSum_cons]

theorem satSum_sortDesc (l : List SpendableUtxo) : satSum (sortDesc l) = satSum l := by
  induction l with
  | nil => rfl
  | cons u rest ih => rw [sortDesc, satSum_insertDesc, ih, satSum_cons]

theorem length_insertDesc (u : SpendableUtxo) (l : List SpendableUtxo) :
    (insertDesc u l).length = l.length + 1 := by
  induction l with
  | nil => rfl
  | cons v rest ih =>
      simp only [insertDesc]
      split_ifs
      · simp [ih]
      · simp

theorem length_sortDesc (l : List SpendableUtxo) : (sortDesc l).length = l.length := by
  induction l with
  | nil => rfl
  | cons u rest ih => rw [sortDesc, length_insertDesc, ih, List.length_cons]

theorem est_one_add_34 (n : Nat) (it ot : String) :
    estimate_transaction_size n 1 it ot + 34 = estimate_transaction_size n 2 it ot := by
  simp [estimate_transaction_size]

theorem est_one_mul_le (n : Nat) (it ot : String) (rate : Int) (hrate : 0 ≤ rate) :
    (estimate_transaction_size n 1 it ot : Int) * rate ≤
      (estimate_transaction_size n 2 it ot : Int) * rate := by
  have h : estimate_transaction_size n 1 it ot ≤ estimate_transaction_size n 2 it ot := by
    have := est_one_add_34 n it ot
    omega
  exact mul_le_mul_of_nonneg_right (by exact_mod_cast h) hrate

/-! ### Claims -/

/-- C4, counterexample: the size estimator that the selector and the
assembler actually call (`tx_builder.estimate_transaction_size`) does not
satisfy the spec's formula.  At 1 segwit input and 1 P2WPKH output the
spec's formula gives 68 + 31 + 10 = 109, the called estimator returns
68 + 34 + 10 = 112 because it prices every output at 34 bytes. -/
theorem C4_counterexample :
    estimate_transaction_size 1 1 "p2wpkh" "p2wpkh" = 112
    ∧ specSizeFormula 1 1 "p2wpkh" "p2wpkh" = 109
    ∧ estimate_transaction_size 1 1 "p2wpkh" "p2wpkh" ≠
        specSizeFormula 1 1 "p2wpkh" "p2wpkh" := by
  refine ⟨rfl, rfl, ?_⟩
  decide

/-- C4, amended: the spec's size formula (per-type output units 34/31/32
and the varint overhead bumps) is computed by
`fee_estimator.estimate_transaction_size_bytes`, and the fee of
`estimate_fee_details` is exactly size times rate in integer arithmetic;
but the estimator that `select_utxos_for_amount` and
`create_raw_transaction` actually call prices every output at 34 bytes
with a fixed overhead of 10, ignoring its `output_type` argument. -/
theorem C4_amended (ni no : Nat) (it ot : String)
    (customRate : Option Int) (defRate : Int) :
    estimate_transaction_size_bytes ni no it ot = specSizeFormula ni no it ot
    ∧ estimate_transaction_size ni no it ot =
        ni * (if it = "p2wpkh" then 68 else if it = "p2pkh" then 148 else 100)
          + no * 34 + 10
    ∧ (estimate_fee_details ni no it ot customRate defRate).2.2 =
        (estimate_transaction_size_bytes ni no it ot : Int) * (customRate.getD defRate) :=
  ⟨rfl, rfl, rfl⟩

/-- C5: decrypting the output of `encrypt_key_data` with the same password
returns the original key data, for every password, key-derivation/cipher
pair meeting the libraries' contracts, serializable data, and 16-byte
salt. -/
theorem C5_encrypt_decrypt_roundtrip {α : Type} (P : CryptoPrims α)
    (salt : Bytes) (nonce : Nat) (data : α) (password : Bytes)
    (hsalt : salt.length = 16) :
    decrypt_key_data P (encrypt_key_data P salt nonce data password) password = some data := by
  have htake : (salt ++ P.enc (P.kdf password salt) nonce (P.serialize data)).take 16 = salt := by
    rw [← hsalt]; exact List.take_left _ _
  have hdrop : (salt ++ P.enc (P.kdf password salt) nonce (P.serialize data)).drop 16 =
      P.enc (P.kdf password salt) nonce (P.serialize data) := by
    rw [← hsalt]; exact List.drop_left _ _
  simp only [decrypt_key_data, encrypt_key_data, htake, hdrop, P.dec_enc, P.parse_serialize]

/-- C5 witness: the round trip evaluated at a concrete 16-byte salt,
nonce, password, and key datum, with the demo primitives. -/
theorem C5_witness :
    (List.replicate 16 0).length = 16
    ∧ decrypt_key_data demoPrims
        (encrypt_key_data demoPrims (List.replicate 16 0) 7 42 [1, 2, 3]) [1, 2, 3]
      = some 42 :=
  ⟨by decide,
   C5_encrypt_decrypt_roundtrip demoPrims (List.replicate 16 0) 7 42 [1, 2, 3] (by decide)⟩

/-- C7: two encryption calls on identical data and password with distinct
fresh 16-byte salts produce different containers, for every cipher meeting
the contract: the container's 16-byte prefix is the salt itself. -/
theorem C7_salt_freshness {α : Type} (P : CryptoPrims α)
    (salt1 salt2 : Bytes) (n1 n2 : Nat) (data : α) (password : Bytes)
    (h1 : salt1.length = 16) (h2 : salt2.length = 16) (hne : salt1 ≠ salt2) :
    encrypt_key_data P salt1 n1 data password ≠ encrypt_key_data P salt2 n2 data password := by
  intro h
  simp only [encrypt_key_data] at h
  have e1 : (salt1 ++ P.enc (P.kdf password salt1) n1 (P.serialize data)).take 16 = salt1 := by
    rw [← h1]; exact List.take_left _ _
  have e2 : (salt2 ++ P.enc (P.kdf password salt2) n2 (P.serialize data)).take 16 = salt2 := by
    rw [← h2]; exact List.take_left _ _
  exact hne (by rw [← e1, h, e2])

/-- C7 witness: two concrete encryptions with distinct salts differ. -/
theorem C7_witness :
    (List.replicate 16 0).length = 16
    ∧ (List.replicate 16 1).length = 16
    ∧ (List.replicate 16 0 : Bytes) ≠ List.replicate 16 1
    ∧ encrypt_key_data demoPrims (List.replicate 16 0) 3 42 [9]
        ≠ encrypt_key_data demoPrims (List.replicate 16 1) 3 42 [9] :=
  ⟨by decide, by decide, by decide,
   C7_salt_freshness demoPrims (List.replicate 16 0) (List.replicate 16 1) 3 3 42 [9]
     (by decide) (by decide) (by decide)⟩

/-- C9, counterexample: three reachable failures of different causes
(insufficient funds in selection, invalid address in assembly, decryption
failure on load) are all raised as the same generic Python `ValueError`
class, so a caller cannot branch on the exception kind to tell the causes
apart. -/
theorem C9_counterexample :
    select_utxos_for_amount [⟨"a", 0, 1 / 100000000, "pk"⟩] 1000000 1 "p2wpkh" "p2pkh"
      = .error .insufficientFunds
    ∧ create_raw_transaction (fun _ _ => false) "r" (1 / 1000) 1
        [⟨"a", 0, 1 / 1000, "pk", 100000⟩] "c" (some ("testnet")) "p2wpkh" "mainnet"
      = .error .invalidAddress
    ∧ load_encrypted_key demoPrims true [] [1] = .error .decryptionFailure
    ∧ pyExcType .insufficientFunds = pyExcType .invalidAddress
    ∧ pyExcType .insufficientFunds = pyKeyExcType .decryptionFailure := by
  refine ⟨?_, ?_, rfl, rfl, rfl⟩
  · norm_num [select_utxos_for_amount, sortDesc, insertDesc, addSats, btc_to_satoshi,
      SATOSHIS_PER_BTC, selectLoop, estimate_transaction_size, satSum]
  · norm_num [create_raw_transaction, resolveNetwork]

/-- C9, amended: every failure of `tx_builder.py`'s selection and assembly
and the decryption failure of `load_encrypted_key` are raised as the one
generic `ValueError`, distinguishable only by message text; only the
missing-file failure is a distinct `FileNotFoundError` class. -/
theorem C9_amended :
    (∀ e : TxError, pyExcType e = "ValueError")
    ∧ pyKeyExcType .decryptionFailure = "ValueError"
    ∧ pyKeyExcType .fileNotFound = "FileNotFoundError" :=
  ⟨fun _ => rfl, rfl, rfl⟩

theorem finalBalanceCheck_ok (nn : String) (wt : Option String) (ins : List TxIn)
    (outs : List TxOut) (ti fee : Int) (tx : Tx) (f : Int)
    (h : finalBalanceCheck nn wt ins outs ti fee = .ok (tx, f)) :
    tx = ⟨nn, wt, ins, outs⟩ ∧ f = fee := by
  simp only [finalBalanceCheck] at h
  split_ifs at h
  all_goals first
    | exact Except.noConfusion h
    | (simp only [Except.ok.injEq, Prod.mk.injEq] at h
       exact ⟨h.1.symm, h.2.symm⟩)

theorem finalBalanceCheck_ne_err (nn : String) (wt : Option String) (ins : List TxIn)
    (outs : List TxOut) (ti fee : Int) :
    finalBalanceCheck nn wt ins outs ti fee ≠ .error .negativeChange := by
  simp only [finalBalanceCheck]
  split_ifs <;> simp

theorem txInputs_value_sum (l : List SpendableUtxo) :
    ((l.map (fun u => TxIn.mk u.txid u.vout u.satoshi_amount)).map (fun i => i.value)).sum
      = satSum l := by
  simp [satSum, List.map_map, Function.comp_def]

/-- C1: whenever `create_raw_transaction` returns a transaction and a fee,
the sum of the input satoshi values equals the sum of the output values
plus the returned fee, exactly, in integer satoshis. -/
theorem C1_balance_invariant (validAddr : String → String → Bool)
    (recipient_address : String) (amount_btc : ℚ) (fee_rate_sats_per_byte : Int)
    (utxos_to_spend : List SpendableUtxo) (change_address : String)
    (network_name : Option String) (input_address_type configNetwork : String)
    (tx : Tx) (fee : Int)
    (h : create_raw_transaction validAddr recipient_address amount_btc fee_rate_sats_per_byte
          utxos_to_spend change_address network_name input_address_type configNetwork
        = .ok (tx, fee)) :
    (tx.inputs.map (fun i => i.value)).sum
      = (tx.outputs.map (fun o => o.value)).sum + fee := by
  simp only [create_raw_transaction] at h
  split_ifs at h
  all_goals first
    | exact Except.noConfusion h
    | (obtain ⟨htx, hfee⟩ := finalBalanceCheck_ok _ _ _ _ _ _ _ _ h
       subst htx hfee
       simp only [txInputs_value_sum, List.map_cons, List.map_nil, List.sum_cons,
         List.sum_nil]
       omega)

/-- C1 witness: a concrete accepted run (one 500000-satoshi segwit input,
0.002 BTC target, rate 2) balances exactly: 500000 = (200000 + 299708) + 292. -/
theorem C1_witness :
    create_raw_transaction (fun _ _ => true) "r" (1 / 500) 2
        [⟨"t", 0, 1 / 200, "pk", 500000⟩] "c" (some ("testnet")) "p2wpkh" "mainnet"
      = .ok (⟨"testnet", some ("segwit"), [⟨"t", 0, 500000⟩],
             [⟨200000, "r"⟩, ⟨299708, "c"⟩]⟩, 292)
    ∧ ((Tx.mk ("testnet") (some ("segwit")) [⟨"t", 0, 500000⟩]
          [⟨200000, "r"⟩, ⟨299708, "c"⟩]).inputs.map (fun i => i.value)).sum
      = ((Tx.mk ("testnet") (some ("segwit")) [⟨"t", 0, 500000⟩]
          [⟨200000, "r"⟩, ⟨299708, "c"⟩]).outputs.map (fun o => o.value)).sum + 292 := by
  have h : create_raw_transaction (fun _ _ => true) "r" (1 / 500) 2
        [⟨"t", 0, 1 / 200, "pk", 500000⟩] "c" (some ("testnet")) "p2wpkh" "mainnet"
      = .ok (⟨"testnet", some ("segwit"), [⟨"t", 0, 500000⟩],
             [⟨200000, "r"⟩, ⟨299708, "c"⟩]⟩, 292) := by
    norm_num [create_raw_transaction, resolveNetwork, preliminary_fee, satSum,
      btc_to_satoshi, SATOSHIS_PER_BTC, estimate_transaction_size, MIN_CHANGE_SATS,
      finalBalanceCheck, witnessTypeOf]
  exact ⟨h, C1_balance_invariant _ _ _ _ _ _ _ _ _ _ _ h⟩

/-- C2: on every accepted run of `create_raw_transaction`, with
`change = total inputs - target - preliminary fee`: if `0 < change < 546`
no change output is created, the transaction has exactly the one
recipient output, and the returned fee is the preliminary fee plus the
change; if `change ≥ 546` a change output of exactly `change` satoshis to
the change address is appended after the recipient output and the fee
stands; if `change = 0` the fee stands with no change output. -/
theorem C2_dust_change_policy (validAddr : String → String → Bool)
    (recipient_address : String) (amount_btc : ℚ) (fee_rate_sats_per_byte : Int)
    (utxos_to_spend : List SpendableUtxo) (change_address : String)
    (network_name : Option String) (input_address_type configNetwork : String)
    (tx : Tx) (fee : Int)
    (h : create_raw_transaction validAddr recipient_address amount_btc fee_rate_sats_per_byte
          utxos_to_spend change_address network_name input_address_type configNetwork
        = .ok (tx, fee)) :
    (0 < computed_change utxos_to_spend amount_btc fee_rate_sats_per_byte input_address_type ∧
       computed_change utxos_to_spend amount_btc fee_rate_sats_per_byte input_address_type < 546 →
       tx.outputs = [⟨btc_to_satoshi amount_btc, recipient_address⟩]
       ∧ fee = preliminary_fee utxos_to_spend amount_btc fee_rate_sats_per_byte input_address_type
               + computed_change utxos_to_spend amount_btc fee_rate_sats_per_byte input_address_type)
    ∧ (computed_change utxos_to_spend amount_btc fee_rate_sats_per_byte input_address_type ≥ 546 →
       tx.outputs = [⟨btc_to_satoshi amount_btc, recipient_address⟩,
         ⟨computed_change utxos_to_spend amount_btc fee_rate_sats_per_byte input_address_type,
          change_address⟩]
       ∧ fee = preliminary_fee utxos_to_spend amount_btc fee_rate_sats_per_byte input_address_type)
    ∧ (computed_change utxos_to_spend amount_btc fee_rate_sats_per_byte input_address_type = 0 →
       tx.outputs = [⟨btc_to_satoshi amount_btc, recipient_address⟩]
       ∧ fee = preliminary_fee utxos_to_spend amount_btc fee_rate_sats_per_byte input_address_type) := by
  simp only [create_raw_transaction, MIN_CHANGE_SATS] at h
  simp only [computed_change]
  split_ifs at h
  all_goals first
    | exact Except.noConfusion h
    | (obtain ⟨htx, hfee⟩ := finalBalanceCheck_ok _ _ _ _ _ _ _ _ h
       subst htx hfee
       refine ⟨fun hx => ?_, fun hx => ?_, fun hx => ?_⟩ <;>
         first
           | exact ⟨rfl, by omega⟩
           | exact absurd hx (by omega))

/-- C2 witness: a concrete run with leftover change of 500 satoshis
(inside the dust interval): one output, fee 292 + 500 = 792. -/
theorem C2_witness :
    create_raw_transaction (fun _ _ => true) "r" (1 / 1000) 2
        [⟨"t", 0, 0, "pk", 100792⟩] "c" (some ("testnet")) "p2wpkh" "mainnet"
      = .ok (⟨"testnet", some ("segwit"), [⟨"t", 0, 100792⟩], [⟨100000, "r"⟩]⟩, 792)
    ∧ (0 < computed_change [⟨"t", 0, 0, "pk", 100792⟩] (1 / 1000) 2 "p2wpkh" ∧
         computed_change [⟨"t", 0, 0, "pk", 100792⟩] (1 / 1000) 2 "p2wpkh" < 546 →
       (Tx.mk ("testnet") (some ("segwit")) [⟨"t", 0, 100792⟩] [⟨100000, "r"⟩]).outputs
         = [⟨btc_to_satoshi (1 / 1000), "r"⟩]
       ∧ (792 : Int) = preliminary_fee [⟨"t", 0, 0, "pk", 100792⟩] (1 / 1000) 2 "p2wpkh"
               + computed_change [⟨"t", 0, 0, "pk", 100792⟩] (1 / 1000) 2 "p2wpkh") := by
  have h : create_raw_transaction (fun _ _ => true) "r" (1 / 1000) 2
        [⟨"t", 0, 0, "pk", 100792⟩] "c" (some ("testnet")) "p2wpkh" "mainnet"
      = .ok (⟨"testnet", some ("segwit"), [⟨"t", 0, 100792⟩], [⟨100000, "r"⟩]⟩, 792) := by
    norm_num [create_raw_transaction, resolveNetwork, preliminary_fee, satSum,
      btc_to_satoshi, SATOSHIS_PER_BTC, estimate_transaction_size, MIN_CHANGE_SATS,
      finalBalanceCheck, witnessTypeOf]
  exact ⟨h, (C2_dust_change_policy _ _ _ _ _ _ _ _ _ _ _ h).1⟩

/-- C10: `create_raw_transaction` never fails with the negative-change
error of `tx_builder.py` line 253: the preliminary insufficient-funds
check at line 216 uses the very same fee, so when it passes the computed
change is non-negative and the negative branch is unreachable. -/
theorem C10_negative_change_unreachable (validAddr : String → String → Bool)
    (recipient_address : String) (amount_btc : ℚ) (fee_rate_sats_per_byte : Int)
    (utxos_to_spend : List SpendableUtxo) (change_address : String)
    (network_name : Option String) (input_address_type configNetwork : String) :
    create_raw_transaction validAddr recipient_address amount_btc fee_rate_sats_per_byte
        utxos_to_spend change_address network_name input_address_type configNetwork
      ≠ .error .negativeChange := by
  intro h
  simp only [create_raw_transaction] at h
  split_ifs at h
  -- error branches of other kinds are discriminated; the two guards of
  -- the negative-change branch contradict the passed insufficient-funds
  -- check, which used the very same fee, closing that branch by omega
  all_goals first
    | exact finalBalanceCheck_ne_err _ _ _ _ _ _ h
    | exact TxError.noConfusion (Except.error.inj h)
    | omega

/-- Invariant of the selection loop: either it stopped with a selection
already covering target plus the 2-output fee of its own length, or it
consumed the whole remaining list, accumulating its total, with the fee
recomputed for the full length (unless it never ran). -/
theorem selectLoop_spec (target rate : Int) (it ot : String) :
    ∀ (rest sel0 : List SpendableUtxo) (total0 fee0 : Int),
      (let r := selectLoop target rate it ot rest sel0 total0 fee0
       (r.2.1 ≥ target + r.2.2 ∧
        r.2.2 = (estimate_transaction_size r.1.length 2 it ot : Int) * rate)
       ∨ (r.1 = sel0 ++ rest ∧ r.2.1 = total0 + satSum rest ∧
          (rest = [] → r = (sel0, total0, fee0)) ∧
          (rest ≠ [] →
            r.2.2 = (estimate_transaction_size (sel0 ++ rest).length 2 it ot : Int) * rate))) := by
  intro rest
  induction rest with
  | nil =>
      intro sel0 total0 fee0
      refine Or.inr ⟨?_, ?_, fun _ => rfl, fun hco => absurd rfl hco⟩
      · simp [selectLoop]
      · simp [selectLoop, satSum]
  | cons u rest' ih =>
      intro sel0 total0 fee0
      simp only [selectLoop]
      split_ifs with hbr
      · exact Or.inl ⟨hbr, rfl⟩
      · rcases ih (sel0 ++ [u]) (total0 + u.satoshi_amount)
            ((estimate_transaction_size (sel0 ++ [u]).length 2 it ot : Int) * rate) with
          hleft | ⟨h1, h2, h3, h4⟩
        · exact Or.inl hleft
        · refine Or.inr ⟨?_, ?_, fun hco => absurd hco (by simp), fun _ => ?_⟩
          · rw [h1, List.append_assoc, List.singleton_append]
          · rw [h2, satSum_cons]; ring
          · by_cases hre : rest' = []
            · subst hre
              rw [h3 rfl]
            · have h4' := h4 hre
              rwa [List.append_assoc, List.singleton_append] at h4'

/-- The post-loop stage of `select_utxos_for_amount` (lines 116-135)
returns successfully with a covering total whenever the loop's fee was the
2-output fee of the selection and the selection covers target plus the
1-output fee for its own length. -/
theorem selectFinal_ok (target rate : Int) (it ot : String) (sel : List SpendableUtxo)
    (total feeL : Int) (hrate : 0 ≤ rate)
    (hfee2 : feeL = (estimate_transaction_size sel.length 2 it ot : Int) * rate)
    (hcov1 : total ≥ target + (estimate_transaction_size sel.length 1 it ot : Int) * rate) :
    ∃ sel' total' fee',
      (if total < target +
          (estimate_transaction_size sel.length
              (if total > target + feeL then 2
               else if total = target + feeL then 1 else 1) it ot : Int) * rate
        then (Except.error TxError.insufficientFunds :
                Except TxError (List SpendableUtxo × Int × Int))
        else .ok (sel, total,
          (estimate_transaction_size sel.length
              (if total > target + feeL then 2
               else if total = target + feeL then 1 else 1) it ot : Int) * rate))
        = .ok (sel', total', fee')
      ∧ total' ≥ target + fee' := by
  have hle := est_one_mul_le sel.length it ot rate hrate
  by_cases hgt : total > target + feeL
  · simp only [if_pos hgt]
    rw [if_neg (by omega)]
    exact ⟨sel, total, _, rfl, by omega⟩
  · by_cases heq : total = target + feeL
    · simp only [if_neg hgt, if_pos heq]
      rw [if_neg (by omega)]
      exact ⟨sel, total, _, rfl, by omega⟩
    · simp only [if_neg hgt, if_neg heq]
      rw [if_neg (by omega)]
      exact ⟨sel, total, _, rfl, by omega⟩

/-- C3: for every non-empty UTXO list (each element structurally carrying
txid, vout, amount and scriptPubKey), every nonnegative fee rate, and
every target such that the total satoshi value of the list is at least the
target plus the minimal achievable fee — the fee for spending all the
inputs with a single output — `select_utxos_for_amount` terminates (it is
a total function) and returns `(selected, total_selected, fee)` with
`total_selected ≥ target + fee`. -/
theorem C3_selection_covers (utxos : List Utxo) (target_amount_sats fee_rate : Int)
    (it ot : String)
    (hne : utxos ≠ [])
    (hrate : 0 ≤ fee_rate)
    (hfunds : satSum (utxos.map addSats) ≥ target_amount_sats +
        (estimate_transaction_size utxos.length 1 it ot : Int) * fee_rate) :
    ∃ sel total fee,
      select_utxos_for_amount utxos target_amount_sats fee_rate it ot = .ok (sel, total, fee)
      ∧ total ≥ target_amount_sats + fee := by
  simp only [select_utxos_for_amount]
  rw [if_neg hne]
  have hsne : sortDesc (utxos.map addSats) ≠ [] := by
    intro hnil
    apply hne
    have hlen := length_sortDesc (utxos.map addSats)
    rw [hnil] at hlen
    simp only [List.length_nil, List.length_map] at hlen
    exact List.eq_nil_of_length_eq_zero hlen.symm
  rcases selectLoop_spec target_amount_sats fee_rate it ot
      (sortDesc (utxos.map addSats)) [] 0 0 with ⟨hge, hfee⟩ | ⟨h1, h2, h3, h4⟩
  · -- the loop stopped early with a covering selection
    refine selectFinal_ok target_amount_sats fee_rate it ot _ _ _ hrate hfee ?_
    have hle := est_one_mul_le
      (selectLoop target_amount_sats fee_rate it ot (sortDesc (utxos.map addSats)) [] 0 0).1.length
      it ot fee_rate hrate
    omega
  · -- the loop consumed every UTXO
    have hlen_r : (selectLoop target_amount_sats fee_rate it ot
        (sortDesc (utxos.map addSats)) [] 0 0).1.length = utxos.length := by
      rw [h1, List.nil_append, length_sortDesc, List.length_map]
    have hfee2 : (selectLoop target_amount_sats fee_rate it ot
        (sortDesc (utxos.map addSats)) [] 0 0).2.2 =
        (estimate_transaction_size (selectLoop target_amount_sats fee_rate it ot
            (sortDesc (utxos.map addSats)) [] 0 0).1.length 2 it ot : Int) * fee_rate := by
      rw [hlen_r, h4 hsne, List.nil_append, length_sortDesc, List.length_map]
    have hcov1 : (selectLoop target_amount_sats fee_rate it ot
        (sortDesc (utxos.map addSats)) [] 0 0).2.1 ≥ target_amount_sats +
        (estimate_transaction_size (selectLoop target_amount_sats fee_rate it ot
            (sortDesc (utxos.map addSats)) [] 0 0).1.length 1 it ot : Int) * fee_rate := by
      rw [hlen_r, h2, satSum_sortDesc]
      simpa using hfunds
    exact selectFinal_ok target_amount_sats fee_rate it ot _ _ _ hrate hfee2 hcov1

/-- C3 witness: one segwit UTXO of 0.005 BTC, target 200000 satoshis,
rate 2: the hypotheses hold concretely and selection succeeds with a
covering total. -/
theorem C3_witness :
    ([⟨"t", 0, 1 / 200, "pk"⟩] : List Utxo) ≠ []
    ∧ (0 : Int) ≤ 2
    ∧ satSum (([⟨"t", 0, 1 / 200, "pk"⟩] : List Utxo).map addSats) ≥ 200000 +
        (estimate_transaction_size 1 1 "p2wpkh" "p2pkh" : Int) * 2
    ∧ (∃ sel total fee,
        select_utxos_for_amount [⟨"t", 0, 1 / 200, "pk"⟩] 200000 2 "p2wpkh" "p2pkh"
          = .ok (sel, total, fee)
        ∧ total ≥ 200000 + fee) := by
  have h3 : satSum (([⟨"t", 0, 1 / 200, "pk"⟩] : List Utxo).map addSats) ≥ 200000 +
      (estimate_transaction_size 1 1 "p2wpkh" "p2pkh" : Int) * 2 := by
    norm_num [satSum, addSats, btc_to_satoshi, SATOSHIS_PER_BTC, estimate_transaction_size]
  refine ⟨by simp, by norm_num, h3, ?_⟩
  exact C3_selection_covers [⟨"t", 0, 1 / 200, "pk"⟩] 200000 2 "p2wpkh" "p2pkh"
    (by simp) (by norm_num) h3

/-- C6: decryption failure is uniform and authenticated.  For every
primitives instance meeting the libraries' contracts: (1) decrypting a
genuine container with a wrong password fails with the single uniform
failure; (2) flipping ANY single byte of the container — in the 16-byte
salt prefix or anywhere in the ciphertext body — makes decryption with
the correct password fail likewise (salt flips change the derived key,
body flips are rejected by the cipher's tamper contract, the
`dec_tamper` field); (3) a successful decryption only ever returns data
parsed from a plaintext genuinely encrypted under this very password and
the container's own salt — never corrupted data; and (4)
`load_encrypted_key` reports every such failure as the one
`DecryptionFailure` kind (the generic `ValueError` of line 137), which
does not distinguish a wrong password from a corrupted container. -/
theorem C6_decryption_failure_uniform {α : Type} (P : CryptoPrims α)
    (pw pw' salt : Bytes) (nonce : Nat) (data : α) (c : Bytes)
    (hsalt : salt.length = 16) (hpw : pw' ≠ pw) :
    decrypt_key_data P (encrypt_key_data P salt nonce data pw) pw' = none
    ∧ (∀ i b, (encrypt_key_data P salt nonce data pw).set i b ≠
          encrypt_key_data P salt nonce data pw →
        decrypt_key_data P ((encrypt_key_data P salt nonce data pw).set i b) pw = none)
    ∧ (∀ d, decrypt_key_data P c pw = some d →
        ∃ n pt, c.drop 16 = P.enc (P.kdf pw (c.take 16)) n pt ∧ P.parse pt = some d)
    ∧ ((∃ d, load_encrypted_key P true c pw = .ok d)
        ∨ load_encrypted_key P true c pw = .error .decryptionFailure) := by
  refine ⟨?_, ?_, ?_, ?_⟩
  · -- wrong password
    have htake : (salt ++ P.enc (P.kdf pw salt) nonce (P.serialize data)).take 16 = salt := by
      rw [← hsalt]; exact List.take_left _ _
    have hdrop : (salt ++ P.enc (P.kdf pw salt) nonce (P.serialize data)).drop 16 =
        P.enc (P.kdf pw salt) nonce (P.serialize data) := by
      rw [← hsalt]; exact List.drop_left _ _
    simp only [decrypt_key_data, encrypt_key_data, htake, hdrop]
    cases hdec : P.dec (P.kdf pw' salt) (P.enc (P.kdf pw salt) nonce (P.serialize data)) with
    | none => rfl
    | some pt =>
        obtain ⟨n, hc⟩ := P.dec_sound _ _ _ hdec
        have hk := P.enc_key_inj _ _ _ _ _ _ hc
        exact absurd (P.kdf_inj _ _ _ _ hk).1 (Ne.symm hpw)
  · -- any single flipped container byte
    intro i b hset
    simp only [encrypt_key_data] at hset ⊢
    by_cases hlt : i < 16
    · -- the flip lands in the salt prefix: the derived key changes
      have hi : i < salt.length := by rw [hsalt]; exact hlt
      have hs : (salt ++ P.enc (P.kdf pw salt) nonce (P.serialize data)).set i b =
          salt.set i b ++ P.enc (P.kdf pw salt) nonce (P.serialize data) :=
        List.set_append_left i b hi
      have hne' : salt.set i b ≠ salt := fun h => hset (by rw [hs, h])
      have hlen' : (salt.set i b).length = 16 := by rw [List.length_set]; exact hsalt
      have htake : ((salt.set i b) ++ P.enc (P.kdf pw salt) nonce (P.serialize data)).take 16 =
          salt.set i b := by
        rw [← hlen']; exact List.take_left _ _
      have hdrop : ((salt.set i b) ++ P.enc (P.kdf pw salt) nonce (P.serialize data)).drop 16 =
          P.enc (P.kdf pw salt) nonce (P.serialize data) := by
        rw [← hlen']; exact List.drop_left _ _
      rw [hs]
      simp only [decrypt_key_data, htake, hdrop]
      cases hdec : P.dec (P.kdf pw (salt.set i b))
          (P.enc (P.kdf pw salt) nonce (P.serialize data)) with
      | none => rfl
      | some pt =>
          obtain ⟨n, hc⟩ := P.dec_sound _ _ _ hdec
          have hk := P.enc_key_inj _ _ _ _ _ _ hc
          exact absurd (P.kdf_inj _ _ _ _ hk).2 (Ne.symm hne')
    · -- the flip lands in the ciphertext body: the tamper contract rejects
      have hge : salt.length ≤ i := by rw [hsalt]; omega
      have hs : (salt ++ P.enc (P.kdf pw salt) nonce (P.serialize data)).set i b =
          salt ++ (P.enc (P.kdf pw salt) nonce (P.serialize data)).set (i - salt.length) b :=
        List.set_append_right i b hge
      have hne' : (P.enc (P.kdf pw salt) nonce (P.serialize data)).set (i - salt.length) b ≠
          P.enc (P.kdf pw salt) nonce (P.serialize data) := fun h => hset (by rw [hs, h])
      have htake : (salt ++
          (P.enc (P.kdf pw salt) nonce (P.serialize data)).set (i - salt.length) b).take 16 =
          salt := by
        rw [← hsalt]; exact List.take_left _ _
      have hdrop : (salt ++
          (P.enc (P.kdf pw salt) nonce (P.serialize data)).set (i - salt.length) b).drop 16 =
          (P.enc (P.kdf pw salt) nonce (P.serialize data)).set (i - salt.length) b := by
        rw [← hsalt]; exact List.drop_left _ _
      have hdec := P.dec_tamper (P.kdf pw salt) nonce (P.serialize data) (i - salt.length) b hne'
      rw [hs]
      simp only [decrypt_key_data, htake, hdrop, hdec]
  · -- successful decryption is of a genuine encryption
    intro d h
    simp only [decrypt_key_data] at h
    cases hdec : P.dec (P.kdf pw (c.take 16)) (c.drop 16) with
    | none => rw [hdec] at h; exact absurd h (by simp)
    | some pt =>
        rw [hdec] at h
        obtain ⟨n, hc⟩ := P.dec_sound _ _ _ hdec
        exact ⟨n, pt, hc, h⟩
  · -- uniform single failure kind on load
    simp only [load_encrypted_key, Bool.not_true]
    cases hdec : decrypt_key_data P c pw with
    | none => right; simp [hdec]
    | some d => left; exact ⟨d, by simp [hdec]⟩

/-- C6 witness: the uniform-failure theorem evaluated at concrete
passwords `[1] ≠ [2]`, a concrete 16-byte salt, nonce, key datum, and an
arbitrary concrete container, with the demo primitives; the tamper part is
exercised at byte 17, inside the ciphertext body of the container. -/
theorem C6_witness :
    (List.replicate 16 0).length = 16
    ∧ ([2] : Bytes) ≠ [1]
    ∧ decrypt_key_data demoPrims
        (encrypt_key_data demoPrims (List.replicate 16 0) 5 42 [1]) [2] = none
    ∧ (encrypt_key_data demoPrims (List.replicate 16 0) 5 42 [1]).set 17 9 ≠
        encrypt_key_data demoPrims (List.replicate 16 0) 5 42 [1]
    ∧ decrypt_key_data demoPrims
        ((encrypt_key_data demoPrims (List.replicate 16 0) 5 42 [1]).set 17 9) [1] = none :=
  ⟨by decide, by decide,
   (C6_decryption_failure_uniform demoPrims [1] [2] (List.replicate 16 0) 5 42 []
      (by decide) (by decide)).1,
   by decide,
   (C6_decryption_failure_uniform demoPrims [1] [2] (List.replicate 16 0) 5 42 []
      (by decide) (by decide)).2.1 17 9 (by decide)⟩

/-- C8, counterexample: in the spec's concrete scenario (two segwit UTXOs
of 0.005 and 0.003 BTC, target 0.002 BTC, rate 2 sat/vbyte) the selection
does pick the 0.005 BTC UTXO alone, but the 1-input/2-output fee is 292
satoshis (146 vbytes at rate 2), not the claimed 276. -/
theorem C8_counterexample :
    select_utxos_for_amount [⟨"a", 0, 1 / 200, "pa"⟩, ⟨"b", 1, 3 / 1000, "pb"⟩]
        (btc_to_satoshi (1 / 500)) 2 "p2wpkh" "p2pkh"
      = .ok ([⟨"a", 0, 1 / 200, "pa", 500000⟩], 500000, 292)
    ∧ (292 : Int) ≠ 276 := by
  constructor
  · norm_num [select_utxos_for_amount, sortDesc, insertDesc, addSats, btc_to_satoshi,
      SATOSHIS_PER_BTC, selectLoop, estimate_transaction_size, satSum]
    simp
  · norm_num

/-- C8, amended: in the concrete scenario the selection picks the
0.005 BTC UTXO alone with fee exactly 292 satoshis, and assembly adds a
change output of exactly 299708 satoshis to the change address
(500000 - 200000 - 292), returning fee 292. -/
theorem C8_amended :
    select_utxos_for_amount [⟨"a", 0, 1 / 200, "pa"⟩, ⟨"b", 1, 3 / 1000, "pb"⟩]
        (btc_to_satoshi (1 / 500)) 2 "p2wpkh" "p2pkh"
      = .ok ([⟨"a", 0, 1 / 200, "pa", 500000⟩], 500000, 292)
    ∧ create_raw_transaction (fun _ _ => true) "recip" (1 / 500) 2
        [⟨"a", 0, 1 / 200, "pa", 500000⟩] "chg" (some ("testnet")) "p2wpkh" "mainnet"
      = .ok (⟨"testnet", some ("segwit"), [⟨"a", 0, 500000⟩],
             [⟨200000, "recip"⟩, ⟨299708, "chg"⟩]⟩, 292) := by
  constructor
  · norm_num [select_utxos_for_amount, sortDesc, insertDesc, addSats, btc_to_satoshi,
      SATOSHIS_PER_BTC, selectLoop, estimate_transaction_size, satSum]
    simp
  · norm_num [create_raw_transaction, resolveNetwork, preliminary_fee, satSum,
      btc_to_satoshi, SATOSHIS_PER_BTC, estimate_transaction_size, MIN_CHANGE_SATS,
      finalBalanceCheck, witnessTypeOf]

end MyBTCWallet
